import Mathlib

/-!
Verification development for the task-bot repository.

We shallowly embed the natural-language task extraction component
(src/nlp_utils.py), the voice-to-text pipeline and the /delete handler
(src/bot.py) as executable Lean definitions, and prove the specified
properties about them.

Modelling conventions:
* Python strings are Lean `String`s; most computations work on `List Char`.
* `str.lower()` is modelled for the character ranges that occur in this
  bot's inputs: ASCII letters and Cyrillic (А-Я, Ё).
* `re`'s `\d` is modelled as an ASCII decimal digit and `\w` as an ASCII
  alphanumeric, underscore, or Cyrillic letter (the ranges exercised here).
* `datetime.now()` is an explicit parameter `now : Nat`, measured in days;
  `timedelta(days = n)` adds `n` and `timedelta(weeks = n)` adds `7 * n`.
-/

namespace TaskBot

/-- Python `str.strip()` whitespace (the characters stripped by default). -/
def pyWs (c : Char) : Bool :=
  c == ' ' || c == '\t' || c == '\n' || c == '\r' || c == '\x0b' || c == '\x0c'

/-- The regex character class `\d` (ASCII decimal digit). -/
def isDigitC (c : Char) : Bool := c.isDigit

/-- The regex character class `[А-Яа-я]` (Cyrillic letters without Ё/ё). -/
def isRuAlpha (c : Char) : Bool :=
  (0x410 ≤ c.toNat && c.toNat ≤ 0x44F)

/-- The regex character class `\w` for the ranges occurring in this bot's
inputs: ASCII alphanumerics, underscore, and Cyrillic letters. -/
def isWordChar (c : Char) : Bool :=
  c.isAlphanum || c == '_' || isRuAlpha c || c == 'ё' || c == 'Ё'

/-- `str.lower()` restricted to ASCII and Cyrillic: `A-Z` and `А-Я` map to
their lowercase forms, `Ё` to `ё`, all other characters are unchanged. -/
def ruToLower (c : Char) : Char :=
  if 'A' ≤ c && c ≤ 'Z' then Char.ofNat (c.toNat + 0x20)
  else if 0x410 ≤ c.toNat && c.toNat ≤ 0x42F then Char.ofNat (c.toNat + 0x20)
  else if c == 'Ё' then 'ё'
  else c

/-- `text.lower()` as a character-list transform. -/
def strLower (l : List Char) : List Char := l.map ruToLower

/-- Python `text.split('.')`: splits at every `'.'`, keeping empty segments. -/
def splitOnDot : List Char → List (List Char)
  | [] => [[]]
  | c :: rest =>
    if c = '.' then [] :: splitOnDot rest
    else
      match splitOnDot rest with
      | [] => [[c]]
      | seg :: segs => (c :: seg) :: segs

/-- Python `'.'.join(parts)`. -/
def joinDot : List (List Char) → List Char
  | [] => []
  | [seg] => seg
  | seg :: segs => seg ++ '.' :: joinDot segs

/-- Python `s.strip()`: drop `pyWs` characters from both ends. -/
def trimEnds (l : List Char) : List Char :=
  ((l.dropWhile pyWs).reverse.dropWhile pyWs).reverse

/-- `leadsWith pat l` holds when `pat` is an initial run of `l`
(the regex engine matching `pat` literally at the current position). -/
def leadsWith : List Char → List Char → Bool
  | [], _ => true
  | _ :: _, [] => false
  | p :: ps, c :: cs => p == c && leadsWith ps cs

/-- Python `pat in l` / `re.search` of a literal pattern: `pat` occurs as a
contiguous substring of `l`. -/
def containsSub : List Char → List Char → Bool
  | [], pat => leadsWith pat []
  | c :: rest, pat => leadsWith pat (c :: rest) || containsSub rest pat

/-- `re.search` of a boolean position-matcher: does it match at some
position, scanning left to right? -/
def searchB (f : List Char → Bool) : List Char → Bool
  | [] => f []
  | c :: rest => f (c :: rest) || searchB f rest

/-- `re.search` of a capturing position-matcher: result of the leftmost
position where it matches. -/
def searchO (f : List Char → Option Nat) : List Char → Option Nat
  | [] => f []
  | c :: rest =>
    match f (c :: rest) with
    | some n => some n
    | none => searchO f rest

/-- `int()` of a digit string. -/
def digitsVal (l : List Char) : Nat :=
  l.foldl (fun n c => n * 10 + (c.toNat - '0'.toNat)) 0

/-- Tail of the pattern `к (\d{1,2}(?:ому)? [А-Яа-я]+)` after the digits:
optional literal `ому`, a space, then at least one `[А-Яа-я]` letter. -/
def afterNumK : List Char → Bool
  | 'о' :: 'м' :: 'у' :: ' ' :: c :: _ => isRuAlpha c
  | ' ' :: c :: _ => isRuAlpha c
  | _ => false

/-- The pattern `к (\d{1,2}(?:ому|ому|ому|ому)? [А-Яа-я]+)` matched at the
current position (src/nlp_utils.py line 29; the duplicated alternatives
collapse to one). -/
def matchKAt : List Char → Bool
  | 'к' :: ' ' :: d1 :: rest =>
    isDigitC d1 &&
      ((match rest with
        | d2 :: rest2 => isDigitC d2 && afterNumK rest2
        | [] => false)
       || afterNumK rest)
  | _ => false

/-- Tail of the pattern `до (\d{1,2}(?:ого)? [А-Яа-я]+)` after the digits. -/
def afterNumDo : List Char → Bool
  | 'о' :: 'г' :: 'о' :: ' ' :: c :: _ => isRuAlpha c
  | ' ' :: c :: _ => isRuAlpha c
  | _ => false

/-- The pattern `до (\d{1,2}(?:ого|ого|ого|ого)? [А-Яа-я]+)` matched at the
current position (src/nlp_utils.py line 30). -/
def matchDoAt : List Char → Bool
  | 'д' :: 'о' :: ' ' :: d1 :: rest =>
    isDigitC d1 &&
      ((match rest with
        | d2 :: rest2 => isDigitC d2 && afterNumDo rest2
        | [] => false)
       || afterNumDo rest)
  | _ => false

/-- The pattern `через (\d+) (?:u₁|u₂|u₃)` matched at the current position,
returning the captured number: literal `через `, a maximal nonempty digit
run, a space, then one of the unit words (src/nlp_utils.py lines 33-34). -/
def matchCherezAt (units : List (List Char)) (l : List Char) : Option Nat :=
  match l with
  | 'ч' :: 'е' :: 'р' :: 'е' :: 'з' :: ' ' :: rest =>
    let ds := rest.takeWhile isDigitC
    if ds = [] then none
    else
      match rest.dropWhile isDigitC with
      | ' ' :: rest3 =>
        if units.any (fun u => leadsWith u rest3) then some (digitsVal ds) else none
      | _ => none
  | _ => none

/-- The literal keyword pattern `завтра` (src/nlp_utils.py line 31). -/
def zavtraCs : List Char := "завтра".data

/-- The literal keyword pattern `на следующей неделе` (line 32). -/
def nextWeekCs : List Char := "на следующей неделе".data

/-- Day-unit alternatives of the `через N` day pattern. -/
def dayUnits : List (List Char) := ["день".data, "дня".data, "дней".data]

/-- Week-unit alternatives of the `через N` week pattern. -/
def weekUnits : List (List Char) := ["неделю".data, "недели".data, "недель".data]

/-- The due-date loop of `extract_task_info` (src/nlp_utils.py lines 26-50):
the six patterns are tried in list order against the lower-cased text; the
first one that `re.search` matches decides the result and the loop breaks.
The two day+month patterns break without producing a date. -/
def findDueDate (low : List Char) (now : Nat) : Option Nat :=
  if searchB matchKAt low then none
  else if searchB matchDoAt low then none
  else if containsSub low zavtraCs then some (now + 1)
  else if containsSub low nextWeekCs then some (now + 7)
  else
    match searchO (matchCherezAt dayUnits) low with
    | some n => some (now + n)
    | none =>
      match searchO (matchCherezAt weekUnits) low with
      | some n => some (now + 7 * n)
      | none => none

/-- The high-priority indicator phrases (src/nlp_utils.py line 55). -/
def highIndicators : List (List Char) :=
  ["срочно".data, "срочная".data, "важно".data, "важная".data,
   "высокий приоритет".data, "приоритетная".data]

/-- The low-priority indicator phrases (src/nlp_utils.py line 56). -/
def lowIndicators : List (List Char) :=
  ["низкий приоритет".data, "не срочно".data, "когда будет время".data,
   "не приоритетная".data]

/-- The priority loop of `extract_task_info` (src/nlp_utils.py lines 52-63):
the `"high"` indicator set is scanned before the `"low"` set over the
lower-cased text (dict insertion order); the first set with a substring hit
wins, defaulting to `"medium"`. -/
def findPriority (low : List Char) : String :=
  if highIndicators.any (fun ind => containsSub low ind) then "high"
  else if lowIndicators.any (fun ind => containsSub low ind) then "low"
  else "medium"

/-- The tuple returned by `extract_task_info`. -/
structure TaskInfo where
  title : String
  description : String
  due_date : Option Nat
  priority : String
  deriving Repr, DecidableEq

/-- `extract_task_info(text)` from src/nlp_utils.py, with the current clock
`now` made an explicit parameter. Title is the first `'.'`-segment,
stripped; description is the remaining segments rejoined with `'.'` and
stripped, or `""` when there is a single segment. -/
def extract_task_info (text : String) (now : Nat) : TaskInfo :=
  let parts := splitOnDot text.data
  let title := String.mk (trimEnds (parts.headD []))
  let description :=
    if parts.length > 1 then String.mk (trimEnds (joinDot parts.tail)) else ""
  let low := strLower text.data
  { title := title
    description := description
    due_date := findDueDate low now
    priority := findPriority low }

/-- The pattern `@(\w+)` matched at the current position: returns the
captured (maximal, nonempty) word-character run after the `@`. -/
def mentionAt : List Char → Option (List Char)
  | [] => none
  | a :: rest =>
    if a = '@' then
      let w := rest.takeWhile isWordChar
      if w = [] then none else some w
    else none

/-- Leftmost `@(\w+)` match over the character list. -/
def mentionSearch : List Char → Option (List Char)
  | [] => none
  | c :: rest =>
    match mentionAt (c :: rest) with
    | some w => some w
    | none => mentionSearch rest

/-- `extract_user_mention(text)` from src/nlp_utils.py lines 67-71:
`re.search(r'@(\w+)', text)` on the raw (non-lower-cased) text. -/
def extract_user_mention (text : String) : Option String :=
  (mentionSearch text.data).map String.mk

/-- Helper predicate for stating mention absence: no position of the list
starts an `@`-token (an `'@'` followed by a word character). -/
def noMentionToken : List Char → Bool
  | [] => true
  | c :: rest => !(mentionAt (c :: rest)).isSome && noMentionToken rest

/-! ### Reference due-date algorithm (from the specification's words)

The spec describes due-date extraction as an explicit ordered list of
(matcher, resolver) pairs evaluated in a fixed declared order: the first
pattern that matches governs; each resolver either produces a date or —
for the two literal day+month patterns — deliberately produces none. -/

/-- A reference pattern entry: `none` when the pattern does not match,
`some r` when it matches, where `r` is the produced due date (possibly
absent for the day+month patterns). -/
def refEntries (now : Nat) : List (List Char → Option (Option Nat)) :=
  [fun l => if searchB matchKAt l then some none else none,
   fun l => if searchB matchDoAt l then some none else none,
   fun l => if containsSub l zavtraCs then some (some (now + 1)) else none,
   fun l => if containsSub l nextWeekCs then some (some (now + 7)) else none,
   fun l => (searchO (matchCherezAt dayUnits) l).map (fun n => some (now + n)),
   fun l => (searchO (matchCherezAt weekUnits) l).map (fun n => some (now + 7 * n))]

/-- Evaluate reference entries in order: the first matching entry governs. -/
def firstHit : List (List Char → Option (Option Nat)) → List Char → Option Nat
  | [], _ => none
  | f :: fs, l =>
    match f l with
    | some r => r
    | none => firstHit fs l

/-- The spec's reference due-date algorithm over the lower-cased input. -/
def dueDateRef (text : String) (now : Nat) : Option Nat :=
  firstHit (refEntries now) (strLower text.data)

/-! ### Voice-to-text pipeline (src/bot.py lines 44-118)

The pipeline interacts with three external collaborators: the Telegram
download, the ffmpeg conversion subprocess, and the speech-recognition
service. We model each collaborator's behaviour on one call as an oracle
value and the pipeline as a function of the oracle. -/

/-- Outcome of `bot.download(voice)` and writing it to the ogg file. -/
inductive DownloadResult where
  | ok
  | raises
  deriving Repr, DecidableEq

/-- Outcome of the ffmpeg subprocess run inside `convert_ogg_to_wav`. -/
inductive ConvResult where
  | success      -- process finished in time with return code 0
  | nonZeroExit  -- process finished in time with a non-zero return code
  | timeout      -- `asyncio.wait_for` raised `TimeoutError` after 10 s
  | raises       -- any other exception inside `convert_ogg_to_wav`
  deriving Repr, DecidableEq

/-- Outcome of opening the wav file and calling the recognition service. -/
inductive RecogResult where
  | text (s : String)  -- `recognize_google` returned a transcription
  | unknownValue       -- `sr.UnknownValueError`: unintelligible audio
  | requestError       -- `sr.RequestError`: recognition-service failure
  | raises             -- any other exception while processing the audio
  deriving Repr, DecidableEq

/-- One call's worth of collaborator behaviour. -/
structure VoiceEnv where
  download : DownloadResult
  conv : ConvResult
  recog : RecogResult
  deriving Repr, DecidableEq

/-- Which of the two temporary files are still on disk when the call
returns (`tempfile.NamedTemporaryFile(delete = False)` creates both
before the download starts). -/
structure TempFiles where
  oggRemains : Bool
  wavRemains : Bool
  deriving Repr, DecidableEq

/-- Observable outcome of one `convert_voice_to_text` call: the returned
value, the temp-file state, and whether an exception escaped to the
caller. -/
structure VoiceOutcome where
  result : Option String
  files : TempFiles
  raised : Bool
  deriving Repr, DecidableEq

/-- `convert_ogg_to_wav` (src/bot.py lines 44-64): returns `True` exactly
when the subprocess finished within the timeout with return code 0; a
timeout kills the process and returns `False`; any other exception is
caught and returns `False`. -/
def convert_ogg_to_wav (c : ConvResult) : Bool :=
  match c with
  | .success => true
  | .nonZeroExit => false
  | .timeout => false
  | .raises => false

/-- The recognition block (src/bot.py lines 92-107) as `Except`:
`.error ()` is an exception escaping the inner `try` (only the two
`sr` exception types are caught there); `.ok v` is a `return v`. -/
def recognitionBlock (r : RecogResult) : Except Unit (Option String) :=
  match r with
  | .text s => .ok (some s)
  | .unknownValue => .ok none
  | .requestError => .ok none
  | .raises => .error ()

/-- The body of the inner `try` (src/bot.py lines 82-107): a failed
conversion returns `None`; otherwise the recognition block runs. -/
def innerBody (env : VoiceEnv) : Except Unit (Option String) :=
  if convert_ogg_to_wav env.conv then recognitionBlock env.recog
  else .ok none

/-- `convert_voice_to_text` (src/bot.py lines 66-118). The inner
`try/finally` unlinks both temp files on every path it guards — but it
guards only the code after the download; a download failure propagates to
the outer `except`, which returns `None` without any cleanup, leaving both
files (created with `delete = False`) on disk. The outer `except` catches
every exception, so none escapes. -/
def convert_voice_to_text (env : VoiceEnv) : VoiceOutcome :=
  match env.download with
  | .raises =>
    -- outer except: files were created but the inner finally never ran
    { result := none, files := { oggRemains := true, wavRemains := true }, raised := false }
  | .ok =>
    -- inner try/finally: both files unlinked on every guarded path
    let cleaned : TempFiles := { oggRemains := false, wavRemains := false }
    match innerBody env with
    | .ok v => { result := v, files := cleaned, raised := false }
    | .error _ => { result := none, files := cleaned, raised := false }

/-! ### The /delete command handler (src/bot.py lines 385-428)

The store is modelled as the lists of user and task rows the handler
queries. The task id arriving as a command argument string is compared to
the integer primary key by the storage layer's numeric coercion, so it is
modelled as a `Nat` here. -/

/-- A pattern that matches at the start of the text occurs in the text. -/
theorem containsSub_of_leadsWith {pat l : List Char}
    (h : leadsWith pat l = true) : containsSub l pat = true := by
  cases l with
  | nil => simpa [containsSub] using h
  | cons c rest => simp [containsSub, h]

/-- If the concatenation `xs ++ ys` matches at the start of `l`, then `ys`
occurs somewhere in `l`. -/
theorem containsSub_of_leadsWith_append {xs ys l : List Char}
    (h : leadsWith (xs ++ ys) l = true) : containsSub l ys = true := by
  induction xs generalizing l with
  | nil => exact containsSub_of_leadsWith (by simpa using h)
  | cons x xs ih =>
    cases l with
    | nil => simp [leadsWith] at h
    | cons c cs =>
      simp only [List.cons_append, leadsWith, Bool.and_eq_true] at h
      have hcs := ih h.2
      simp [containsSub, hcs]

/-- Substring occurrence is monotone under dropping a prefix of the
pattern: if `xs ++ ys` occurs in `l` so does `ys`. -/
theorem containsSub_append_right {xs ys l : List Char}
    (h : containsSub l (xs ++ ys) = true) : containsSub l ys = true := by
  induction l with
  | nil =>
    simp only [containsSub] at h ⊢
    cases xs with
    | nil => simpa using h
    | cons x xs => simp [leadsWith] at h
  | cons c rest ih =>
    simp only [containsSub, Bool.or_eq_true] at h
    rcases h with h | h
    · exact containsSub_of_leadsWith_append h
    · simp [containsSub, ih h]

/-- `splitOnDot` never returns an empty list of segments. -/
theorem splitOnDot_ne_nil (l : List Char) : splitOnDot l ≠ [] := by
  cases l with
  | nil => simp [splitOnDot]
  | cons c rest =>
    simp only [splitOnDot]
    split
    · simp
    · split <;> simp

/-- The first segment of the period split is the run of characters before
the first period. -/
theorem splitOnDot_head (l : List Char) :
    (splitOnDot l).headD [] = l.takeWhile (fun c => c != '.') := by
  induction l with
  | nil => simp [splitOnDot]
  | cons c rest ih =>
    simp only [splitOnDot, List.takeWhile_cons]
    by_cases hc : c = '.'
    · simp [hc]
    · simp only [hc, if_false, bne_iff_ne, ne_eq, not_false_eq_true, if_pos, hc]
      cases hs : splitOnDot rest with
      | nil => exact absurd hs (splitOnDot_ne_nil rest)
      | cons seg segs =>
        simp only [List.headD_cons]
        rw [hs] at ih
        simp only [List.headD_cons] at ih
        simp [ih, hc]

/-- Stripping whitespace from the ends keeps the result nonempty as long
as some character of the input is not whitespace. -/
theorem trimEnds_ne_nil {l : List Char} (h : ∃ c ∈ l, pyWs c = false) :
    trimEnds l ≠ [] := by
  intro hnil
  obtain ⟨c, hc, hpc⟩ := h
  have h1 : (l.dropWhile pyWs).reverse.dropWhile pyWs = [] := by
    simpa [trimEnds] using congrArg List.reverse hnil
  have h2 : ∀ x ∈ l.dropWhile pyWs, pyWs x = true := by
    intro x hx
    exact (List.dropWhile_eq_nil_iff).1 h1 x (List.mem_reverse.2 hx)
  have h3 : ∀ x ∈ l.takeWhile pyWs, pyWs x = true := fun x hx =>
    List.mem_takeWhile_imp hx
  have h4 : ∀ x ∈ l, pyWs x = true := by
    intro x hx
    rw [← List.takeWhile_append_dropWhile (p := pyWs) (l := l)] at hx
    rcases List.mem_append.1 hx with hx | hx
    · exact h3 x hx
    · exact h2 x hx
  rw [h4 c hc] at hpc
  exact Bool.noConfusion hpc

/-- The mention search fails exactly when no position starts an
`@`-token. -/
theorem mentionSearch_isNone (l : List Char) :
    (mentionSearch l).isNone = noMentionToken l := by
  induction l with
  | nil => simp [mentionSearch, noMentionToken]
  | cons c rest ih =>
    cases h : mentionAt (c :: rest) with
    | some w => simp [mentionSearch, noMentionToken, h]
    | none => simp [mentionSearch, noMentionToken, h, ih]

/-- Whether `@(\w+)` matches at a position depends only on the character
there and the one after it. -/
theorem mentionAt_cons_isSome (p : Char) (l : List Char) :
    (mentionAt (p :: l)).isSome
      = (p == '@' && (l.head?.map isWordChar).getD false) := by
  by_cases hp : p = '@'
  · subst hp
    cases l with
    | nil => simp [mentionAt]
    | cons d l' =>
      cases hd : isWordChar d with
      | true => simp [mentionAt, List.takeWhile_cons, hd]
      | false => simp [mentionAt, List.takeWhile_cons, hd]
  · simp [mentionAt, hp]

/-- The mention search returns the handle of the first `@`-token: if no
position of `pre` starts an `@`-token, the match at the `'@'` right after
`pre` wins, capturing the maximal word-character run there. -/
theorem mentionSearch_first (pre rest : List Char) (c : Char)
    (hw : isWordChar c = true) (hpre : noMentionToken (pre ++ ['@']) = true) :
    mentionSearch (pre ++ '@' :: c :: rest) = some (c :: rest.takeWhile isWordChar) := by
  induction pre with
  | nil =>
    simp [mentionSearch, mentionAt, List.takeWhile_cons, hw]
  | cons p pre ih =>
    simp only [List.cons_append, noMentionToken, Bool.and_eq_true] at hpre
    have h1 : (mentionAt (p :: (pre ++ ['@']))).isSome = false := by
      simpa using hpre.1
    have hh : (pre ++ ['@']).head? = (pre ++ '@' :: c :: rest).head? := by
      cases pre <;> rfl
    have h2 : (mentionAt (p :: (pre ++ '@' :: c :: rest))).isSome = false := by
      rw [mentionAt_cons_isSome] at h1 ⊢
      rw [← hh]
      exact h1
    have hnone : mentionAt (p :: (pre ++ '@' :: c :: rest)) = none := by
      cases hm : mentionAt (p :: (pre ++ '@' :: c :: rest)) with
      | none => rfl
      | some w => rw [hm] at h2; exact Bool.noConfusion h2
    have hstep : mentionSearch ((p :: pre) ++ '@' :: c :: rest)
        = mentionSearch (pre ++ '@' :: c :: rest) := by
      rw [List.cons_append]
      simp [mentionSearch, hnone]
    rw [hstep]
    exact ih hpre.2

/-- The due-date loop of the code agrees with the spec's ordered
(matcher, resolver) list. -/
theorem findDueDate_eq_firstHit (l : List Char) (now : Nat) :
    findDueDate l now = firstHit (refEntries now) l := by
  simp only [findDueDate, refEntries, firstHit]
  cases hk : searchB matchKAt l <;>
    cases hd : searchB matchDoAt l <;>
      cases hz : containsSub l zavtraCs <;>
        cases hn : containsSub l nextWeekCs <;>
          cases hcd : searchO (matchCherezAt dayUnits) l <;>
            cases hcw : searchO (matchCherezAt weekUnits) l <;>
              simp [hk, hd, hz, hn, hcd, hcw]

/-! ## Claim theorems -/

/-- C1 counterexample: on the spec's showcase input the due date is NOT
absent — `re.search(r'завтра', ...)` matches inside the inflected word
"завтрашнему", so the code produces now + 1 day. -/
theorem c1_counterexample :
    (extract_task_info "Создать задачу: Подготовить отчет к завтрашнему дню. Важно!" 0).due_date
      = some 1
    ∧ (extract_task_info "Создать задачу: Подготовить отчет к завтрашнему дню. Важно!" 0).due_date
      ≠ none := by
  exact ⟨by decide, by decide⟩

/-- C1 (amended): for the input "Создать задачу: Подготовить отчет к
завтрашнему дню. Важно!", `extract_task_info` returns the stated title,
description "Важно!" and priority "high", but the due date is now + 1 day,
because the literal keyword pattern "завтра" matches as a substring of
"завтрашнему". -/
theorem c1_showcase_extraction (now : Nat) :
    extract_task_info "Создать задачу: Подготовить отчет к завтрашнему дню. Важно!" now =
      { title := "Создать задачу: Подготовить отчет к завтрашнему дню"
        description := "Важно!"
        due_date := some (now + 1)
        priority := "high" } := by
  rfl

/-- C2 counterexample: the input "." is non-empty, yet the extracted title
is the empty string (there is no fall-back to the trimmed raw input). -/
theorem c2_counterexample :
    ("." : String) ≠ "" ∧ (extract_task_info "." 0).title = "" := by
  exact ⟨by decide, by decide⟩

/-- C2 (amended): the title is always the run of characters before the
first period, stripped of surrounding whitespace — with no fall-back. When
the input contains no period this equals the trimmed raw input (so
punctuation-only input without a period keeps its text as title), and the
title is non-empty whenever some character before the first period is not
whitespace; but an input whose first period-segment is empty or blank
(e.g. ".") yields an empty title. -/
theorem c2_title_rule (text : String) (now : Nat) :
    ((extract_task_info text now).title
        = String.mk (trimEnds (text.data.takeWhile (fun c => c != '.'))))
    ∧ ('.' ∉ text.data →
        (extract_task_info text now).title = String.mk (trimEnds text.data))
    ∧ ((∃ c ∈ text.data.takeWhile (fun c => c != '.'), pyWs c = false) →
        (extract_task_info text now).title ≠ "") := by
  have h1 : (extract_task_info text now).title
      = String.mk (trimEnds (text.data.takeWhile (fun c => c != '.'))) := by
    simp [extract_task_info, ← splitOnDot_head]
  refine ⟨h1, ?_, ?_⟩
  · intro hnd
    rw [h1]
    have hall : ∀ c ∈ text.data, (c != '.') = true := by
      intro c hc
      simp only [bne_iff_ne, ne_eq]
      intro hcd
      exact hnd (hcd ▸ hc)
    rw [List.takeWhile_eq_self_iff.2 hall]
  · intro hex heq
    rw [h1] at heq
    have : trimEnds (text.data.takeWhile (fun c => c != '.')) = [] :=
      congrArg String.data heq
    exact trimEnds_ne_nil hex this

/-- Witness for C2 at the punctuation-only, period-free input "!!!". -/
theorem c2_title_rule_witness :
    (extract_task_info "!!!" 0).title = String.mk (trimEnds ("!!!" : String).data) ∧
    (extract_task_info "!!!" 0).title ≠ "" :=
  ⟨(c2_title_rule "!!!" 0).2.1 (by decide),
   (c2_title_rule "!!!" 0).2.2 (by decide)⟩

/-- C3 (confirmed): the due-date extraction of `extract_task_info` equals
the spec's reference algorithm — the fixed ordered pattern list evaluated
against the lower-cased input, the first matching pattern governing, the
day+month patterns stopping the scan with no date — and consequently any
input containing "завтра" on which neither day+month pattern matches gets
due date now + 1 day. -/
theorem c3_due_date_algorithm :
    (∀ (text : String) (now : Nat),
      (extract_task_info text now).due_date = dueDateRef text now)
    ∧ (∀ (text : String) (now : Nat),
        searchB matchKAt (strLower text.data) = false →
        searchB matchDoAt (strLower text.data) = false →
        containsSub (strLower text.data) zavtraCs = true →
        (extract_task_info text now).due_date = some (now + 1)) := by
  constructor
  · intro text now
    simpa [extract_task_info, dueDateRef] using
      findDueDate_eq_firstHit (strLower text.data) now
  · intro text now hk hd hz
    simp [extract_task_info, findDueDate, hk, hd, hz]

/-- Witness for C3 at the concrete input "завтра". -/
theorem c3_witness :
    (extract_task_info "завтра" 3).due_date = dueDateRef "завтра" 3 ∧
    (extract_task_info "завтра" 3).due_date = some 4 :=
  ⟨c3_due_date_algorithm.1 "завтра" 3,
   c3_due_date_algorithm.2 "завтра" 3 (by decide) (by decide) (by decide)⟩

/-- C4 (confirmed): the high-priority indicator table is scanned before
the low-priority table over the lower-cased input: any input containing a
high-priority phrase gets priority "high" (whatever low-priority phrases
it also contains), and an input containing no phrase of either table gets
priority "medium". -/
theorem c4_priority_rule (text : String) (now : Nat) :
    ((highIndicators.any (fun ind => containsSub (strLower text.data) ind)) = true →
      (extract_task_info text now).priority = "high")
    ∧ ((highIndicators.any (fun ind => containsSub (strLower text.data) ind)) = false →
       (lowIndicators.any (fun ind => containsSub (strLower text.data) ind)) = false →
      (extract_task_info text now).priority = "medium") := by
  constructor
  · intro h
    simp [extract_task_info, findPriority, h]
  · intro h hl
    simp [extract_task_info, findPriority, h, hl]

/-- Witness for C4: an input with both a high and a low phrase is "high";
an input with neither is "medium". -/
theorem c4_witness :
    (extract_task_info "важно, но не срочно" 0).priority = "high" ∧
    (extract_task_info "просто задача" 0).priority = "medium" :=
  ⟨(c4_priority_rule "важно, но не срочно" 0).1 (by decide),
   (c4_priority_rule "просто задача" 0).2 (by decide) (by decide)⟩

/-- C5 (confirmed): because indicator matching is plain substring
containment and "не срочно" / "не приоритетная" contain the high
indicators "срочно" / "приоритетная", every input containing one of the
negated phrases is assigned priority "high"; the result "low" is reachable
only through "низкий приоритет" or "когда будет время". -/
theorem c5_negation_blind_priority (text : String) (now : Nat) :
    ((containsSub (strLower text.data) "не срочно".data = true ∨
      containsSub (strLower text.data) "не приоритетная".data = true) →
      (extract_task_info text now).priority = "high")
    ∧ ((extract_task_info text now).priority = "low" →
       containsSub (strLower text.data) "низкий приоритет".data = true ∨
       containsSub (strLower text.data) "когда будет время".data = true) := by
  constructor
  · intro h
    have hhigh : (highIndicators.any (fun ind => containsSub (strLower text.data) ind)) = true := by
      rcases h with h | h
      · have hap : "не ".data ++ "срочно".data = "не срочно".data := by decide
        rw [← hap] at h
        have hs := containsSub_append_right h
        simp [highIndicators, List.any_cons, hs]
      · have hap : "не ".data ++ "приоритетная".data = "не приоритетная".data := by decide
        rw [← hap] at h
        have hs := containsSub_append_right h
        simp [highIndicators, List.any_cons, hs]
    simp [extract_task_info, findPriority, hhigh]
  · intro hlow
    cases hha : (highIndicators.any (fun ind => containsSub (strLower text.data) ind)) with
    | true =>
      simp [extract_task_info, findPriority, hha] at hlow
    | false =>
      cases hla : (lowIndicators.any (fun ind => containsSub (strLower text.data) ind)) with
      | false =>
        simp [extract_task_info, findPriority, hha, hla] at hlow
      | true =>
        have hd := List.any_eq_true.1 hla
        simp only [lowIndicators, List.mem_cons, List.not_mem_nil, or_false] at hd
        obtain ⟨ind, hind, hc⟩ := hd
        rcases hind with h | h | h | h <;> subst h
        · exact Or.inl hc
        · exfalso
          have hc' : containsSub (strLower text.data) ("не ".data ++ "срочно".data) = true := hc
          have hs := containsSub_append_right hc'
          have hh : (highIndicators.any (fun ind => containsSub (strLower text.data) ind)) = true := by
            simp [highIndicators, List.any_cons, hs]
          rw [hh] at hha
          exact Bool.noConfusion hha
        · exact Or.inr hc
        · exfalso
          have hc' : containsSub (strLower text.data) ("не ".data ++ "приоритетная".data) = true := hc
          have hs := containsSub_append_right hc'
          have hh : (highIndicators.any (fun ind => containsSub (strLower text.data) ind)) = true := by
            simp [highIndicators, List.any_cons, hs]
          rw [hh] at hha
          exact Bool.noConfusion hha

/-- Witness for C5: "это не срочно" is classified "high", and an actual
"low" input contains one of the two reachable low phrases. -/
theorem c5_witness :
    (extract_task_info "это не срочно" 0).priority = "high" ∧
    (containsSub (strLower ("низкий приоритет" : String).data) "низкий приоритет".data = true ∨
     containsSub (strLower ("низкий приоритет" : String).data) "когда будет время".data = true) :=
  ⟨(c5_negation_blind_priority "это не срочно" 0).1 (Or.inl (by decide)),
   (c5_negation_blind_priority "низкий приоритет" 0).2 (by decide)⟩

/-- C6 (confirmed): "Новая задача: Связаться с клиентом @ivan до пятницы"
yields mention "ivan" and no due date (the "до" pattern needs a numeric
day); for every text containing mentions, the handle of the first
`@`-token is the one returned (any later mentions, inside `rest`, are
ignored); and the mention is absent exactly when no position of the text
starts an `@`-token. -/
theorem c6_mention_extraction :
    extract_user_mention "Новая задача: Связаться с клиентом @ivan до пятницы" = some "ivan"
    ∧ (extract_task_info "Новая задача: Связаться с клиентом @ivan до пятницы" 0).due_date = none
    ∧ (∀ (pre rest : List Char) (c : Char), isWordChar c = true →
        noMentionToken (pre ++ ['@']) = true →
        extract_user_mention (String.mk (pre ++ '@' :: c :: rest))
          = some (String.mk (c :: rest.takeWhile isWordChar)))
    ∧ (∀ text : String, (extract_user_mention text).isNone = noMentionToken text.data) := by
  refine ⟨by decide, by decide, ?_, ?_⟩
  · intro pre rest c hw hpre
    simp only [extract_user_mention]
    rw [mentionSearch_first pre rest c hw hpre]
    rfl
  · intro text
    rw [← mentionSearch_isNone]
    simp only [extract_user_mention]
    cases mentionSearch text.data <;> rfl

/-- Witness for C6: in a text with two mentions, the first handle is the
one extracted. -/
theorem c6_witness :
    extract_user_mention "передай @anna и @boris" = some "anna" :=
  c6_mention_extraction.2.2.1 "передай ".data "nna и @boris".data 'a' (by decide) (by decide)

/-- C7 (confirmed): the extractor is deterministic — on identical input
and identical clock value, `extract_task_info` and `extract_user_mention`
return field-for-field identical results. (Purity is captured by the
embedding: both are functions of the input text and the clock alone.) -/
theorem c7_deterministic (t₁ t₂ : String) (n₁ n₂ : Nat)
    (ht : t₁ = t₂) (hn : n₁ = n₂) :
    extract_task_info t₁ n₁ = extract_task_info t₂ n₂ ∧
    extract_user_mention t₁ = extract_user_mention t₂ := by
  subst ht; subst hn; exact ⟨rfl, rfl⟩

/-- Witness for C7 at a concrete input and clock. -/
theorem c7_witness :
    extract_task_info "задача" 2 = extract_task_info "задача" 2 ∧
    extract_user_mention "задача" = extract_user_mention "задача" :=
  c7_deterministic "задача" "задача" 2 2 rfl rfl

/-- C8 (confirmed): `convert_voice_to_text` fails soft — whenever the
ffmpeg conversion times out or exits non-zero, or the recognition service
cannot understand the audio or reports an error, the call returns `None`,
and no exception escapes to the caller. -/
theorem c8_fail_soft (env : VoiceEnv)
    (h : env.conv = ConvResult.timeout ∨ env.conv = ConvResult.nonZeroExit ∨
         env.recog = RecogResult.unknownValue ∨ env.recog = RecogResult.requestError) :
    (convert_voice_to_text env).result = none ∧
    (convert_voice_to_text env).raised = false := by
  obtain ⟨d, c, r⟩ := env
  cases d <;> cases c <;> cases r <;>
    simp_all [convert_voice_to_text, innerBody, convert_ogg_to_wav, recognitionBlock]

/-- Witness for C8: a conversion timeout yields `None` with no escaping
exception. -/
theorem c8_witness :
    (convert_voice_to_text
        ⟨DownloadResult.ok, ConvResult.timeout, RecogResult.text "привет"⟩).result = none ∧
    (convert_voice_to_text
        ⟨DownloadResult.ok, ConvResult.timeout, RecogResult.text "привет"⟩).raised = false :=
  c8_fail_soft ⟨DownloadResult.ok, ConvResult.timeout, RecogResult.text "привет"⟩ (Or.inl rfl)

/-- C9 counterexample: when the audio download raises, the call returns
`None` but both temporary files are left on disk — the cleanup block is
only entered after the download. -/
theorem c9_counterexample :
    (convert_voice_to_text
        ⟨DownloadResult.raises, ConvResult.success, RecogResult.text "ок"⟩).files =
      { oggRemains := true, wavRemains := true } := by
  decide

/-- C9 (amended): on every exit path reached after the audio download
completes — success, conversion timeout or failure, recognition failure,
and exceptions raised during audio processing — both temporary artifacts
are removed before the call returns; only a failure of the download itself
leaves them on disk. -/
theorem c9_cleanup_after_download (env : VoiceEnv)
    (h : env.download = DownloadResult.ok) :
    (convert_voice_to_text env).files =
      { oggRemains := false, wavRemains := false } := by
  obtain ⟨d, c, r⟩ := env
  cases d with
  | ok => cases c <;> cases r <;> rfl
  | raises => simp at h

/-- Witness for C9: after a successful download, a timed-out conversion
still leaves no artifacts behind. -/
theorem c9_cleanup_witness :
    (convert_voice_to_text
        ⟨DownloadResult.ok, ConvResult.timeout, RecogResult.text "а"⟩).files =
      { oggRemains := false, wavRemains := false } :=
  c9_cleanup_after_download ⟨DownloadResult.ok, ConvResult.timeout, RecogResult.text "а"⟩ rfl

end TaskBot
